import Mathlib

set_option maxRecDepth 4000

/-!
Shallow embedding of the core scraping/aggregation pipeline of `app.py`
(class `IGNForumAnalyzer` plus the module-level helpers `filter_by_date`
and the aggregations inside `create_wrapped_report`).

Modelling conventions:
* Python exceptions are modelled with `Except PyExc`; a `try/except`
  becomes a `match` on the `Except` value.
* Python `float` is modelled exactly on decimal literals (as a scaled
  integer `num / den`), with the IEEE-754 overflow-to-infinity behaviour
  kept (magnitudes at or above `2 ^ 1024` become `inf`, as in
  `float("inf")` / `float("1e400")`).  Rounding of finite values to the
  nearest binary double is not modelled (the embedded value is the exact
  decimal); none of the verified properties depend on that rounding.
  Underscore digit grouping ("1_0") and non-ASCII digits are not modelled.
* BeautifulSoup nodes are modelled by the record `ThreadNode` holding
  exactly the pieces of markup `extract_post_data` reads.
* `pd.to_datetime(..).tz_convert(pytz.UTC)` is modelled by `parseToUTC`,
  a parser for the ISO-8601 timestamps the forum markup carries
  (`YYYY-MM-DDTHH:MM:SS` plus a mandatory UTC offset).  A missing offset
  (a naive datetime, for which `tz_convert` raises `TypeError`) and any
  other shape both yield `none`, which the extractor turns into a raised
  exception, exactly as in the source.
-/

/-- Python exception kinds relevant to the embedded code. -/
inductive PyExc where
  | valueError
  | overflowError
  | attributeError
  | typeError
deriving DecidableEq

/-- A Python `float` value: a finite exact decimal `num / den`, or one of
the special values.  `den` is always a positive power of ten. -/
inductive PyFloat where
  | finite (num : Int) (den : Nat)
  | inf
  | neginf
  | nan
deriving DecidableEq

/-- Characters stripped by Python `str.strip()` (ASCII whitespace). -/
def isPySpace (c : Char) : Bool :=
  c = ' ' ∨ c = '\t' ∨ c = '\n' ∨ c = '\r' ∨ c = '\x0b' ∨ c = '\x0c'

/-- Python `str.strip()` on a character list. -/
def pyStripChars (l : List Char) : List Char :=
  ((l.dropWhile isPySpace).reverse.dropWhile isPySpace).reverse

/-- Split a leading `+` or `-` sign, returning the sign as `1` or `-1`. -/
def splitSign (l : List Char) : Int × List Char :=
  match l with
  | [] => (1, [])
  | c :: rest => if c = '+' then (1, rest) else if c = '-' then (-1, rest) else (1, l)

/-- Numeric value of a list of decimal digits. -/
def digitsToNat (l : List Char) : Nat :=
  l.foldl (fun a c => a * 10 + (c.toNat - 48)) 0

/-- All characters are ASCII digits. -/
def allDigits (l : List Char) : Bool := l.all (fun c => c.isDigit)

/-- Split a list at the first occurrence of `c`; the second component is
`none` when `c` does not occur. -/
def splitFirst (c : Char) : List Char → List Char × Option (List Char)
  | [] => ([], none)
  | x :: xs =>
    if x = c then ([], some xs)
    else
      let r := splitFirst c xs
      (x :: r.1, r.2)

/-- Build a finite float or overflow to an infinity, modelling IEEE-754
double overflow (threshold approximated by `16 ^ 256 = 2 ^ 1024`). -/
def capFloat (num : Int) (den : Nat) : PyFloat :=
  if 16 ^ 256 * den ≤ num.natAbs then (if num < 0 then .neginf else .inf)
  else .finite num den

/-- The decimal-literal part of Python `float()`:
`digits [. digits] [E [sign] digits]`, with at least one mantissa digit. -/
def pyFloatDecimal (sgn : Int) (l : List Char) : Option PyFloat :=
  let me := splitFirst 'E' l
  let ifp := splitFirst '.' me.1
  let ip := ifp.1
  let fp := (ifp.2).getD []
  if allDigits ip = true ∧ allDigits fp = true ∧ (ip ≠ [] ∨ fp ≠ []) then
    let mant : Int := sgn * (digitsToNat (ip ++ fp) : Int)
    match me.2 with
    | none => some (capFloat mant (10 ^ fp.length))
    | some el =>
      let se := splitSign el
      if se.2 ≠ [] ∧ allDigits se.2 = true then
        let e : Int := se.1 * (digitsToNat se.2 : Int)
        if 0 ≤ e then some (capFloat (mant * (10 : Int) ^ e.toNat) (10 ^ fp.length))
        else some (capFloat mant (10 ^ fp.length * 10 ^ (-e).toNat))
      else none
  else none

/-- Python `float()` body after sign splitting.  The inputs reaching this
model are already upper-cased, so only the upper-case spellings of the
special values are recognised. -/
def pyFloatBody (sgn : Int) (l : List Char) : Option PyFloat :=
  if l = "INF".toList ∨ l = "INFINITY".toList then
    some (if sgn = -1 then .neginf else .inf)
  else if l = "NAN".toList then some .nan
  else pyFloatDecimal sgn l

/-- Python `float(str)`: strip, split the sign, parse.  `none` models a
raised `ValueError`. -/
def pyFloatOfChars (l0 : List Char) : Option PyFloat :=
  let sl := splitSign (pyStripChars l0)
  pyFloatBody sl.1 sl.2

/-- Python `int(str)`: strip, optional sign, decimal digits.  `none`
models a raised `ValueError`. -/
def pyIntOfChars (l0 : List Char) : Option Int :=
  let sl := splitSign (pyStripChars l0)
  if sl.2 ≠ [] ∧ allDigits sl.2 = true then some (sl.1 * (digitsToNat sl.2 : Int))
  else none

/-- Python `int(float)`: truncation toward zero; `int(inf)` raises
`OverflowError` and `int(nan)` raises `ValueError`. -/
def pyFloatToInt : PyFloat → Except PyExc Int
  | .finite num den => .ok (num.tdiv den)
  | .inf => .error .overflowError
  | .neginf => .error .overflowError
  | .nan => .error .valueError

/-- Multiplication of a Python float by a positive integer multiplier,
with overflow to infinity as in IEEE-754 arithmetic. -/
def pyMulNat : PyFloat → Nat → PyFloat
  | .finite num den, m => capFloat (num * m) den
  | .inf, _ => .inf
  | .neginf, _ => .neginf
  | .nan, _ => .nan

/-- The suffix test of `_convert_abbreviated_number`: the multipliers
dict maps `K`/`M`/`B`; `text.endswith(suffix)` with the suffix stripped
(`text[:-1]`).  The suffixes are single distinct characters, so the dict
iteration order is irrelevant. -/
def suffixMult (l : List Char) : Option (List Char × Nat) :=
  match l.getLast? with
  | some 'K' => some (l.dropLast, 1000)
  | some 'M' => some (l.dropLast, 1000000)
  | some 'B' => some (l.dropLast, 1000000000)
  | _ => none

/-- The normalisation prefix of `_convert_abbreviated_number`:
`text.strip().upper()` followed by `text.replace(',', '')`. -/
def normCount (s : String) : List Char :=
  ((pyStripChars s.toList).map Char.toUpper).filter (fun c => c ≠ ',')

/-- `IGNForumAnalyzer._convert_abbreviated_number` (app.py:84-106).
`.ok n` is a returned integer; `.error e` is an uncaught exception.
Both `try` blocks catch only `ValueError` (mapped to a returned `0`), so
the `OverflowError` from `int(number)` on an infinite float escapes. -/
def _convert_abbreviated_number (s : String) : Except PyExc Int :=
  let text := normCount s
  match suffixMult text with
  | some pm =>
    match pyFloatOfChars pm.1 with
    | none => .ok 0
    | some f =>
      match pyFloatToInt (pyMulNat f pm.2) with
      | .ok n => .ok n
      | .error .valueError => .ok 0
      | .error e => .error e
  | none => .ok ((pyIntOfChars text).getD 0)

/-- The exact condition under which `_convert_abbreviated_number` raises:
a recognised suffix whose prefix parses as a float and whose product with
the multiplier is infinite. -/
def overflowCond (s : String) : Bool :=
  match suffixMult (normCount s) with
  | some pm =>
    match pyFloatOfChars pm.1 with
    | some f =>
      match pyMulNat f pm.2 with
      | .inf => true
      | .neginf => true
      | _ => false
    | none => false
  | none => false

/-- The integer returned by `_convert_abbreviated_number` on the
non-raising paths (defaulting to `0` on the raising path). -/
def convResult (s : String) : Int :=
  match _convert_abbreviated_number s with
  | .ok n => n
  | .error _ => 0

deriving instance DecidableEq for Except

example : _convert_abbreviated_number "32K" = .ok 32000 := by decide
example : _convert_abbreviated_number "1.5M" = .ok 1500000 := by decide
example : _convert_abbreviated_number "1,234" = .ok 1234 := by decide
example : _convert_abbreviated_number "abc" = .ok 0 := by decide
example : _convert_abbreviated_number "" = .ok 0 := by decide
example : _convert_abbreviated_number "infK" = .error .overflowError := by decide
example : _convert_abbreviated_number "-5" = .ok (-5) := by decide
example : _convert_abbreviated_number "nanK" = .ok 0 := by decide

/-- A UTC-normalised instant, as seconds since the Unix epoch.  This is
the value of a timezone-aware pandas timestamp after
`.tz_convert(pytz.UTC)`. -/
structure Timestamp where
  utcSeconds : Int
deriving DecidableEq

/-- The UTC calendar-date projection (`.dt.date` on a UTC timestamp), as
days since 1970-01-01. -/
def dateOfTs (t : Timestamp) : Int := t.utcSeconds.fdiv 86400

/-- The UTC hour of day (`.dt.hour` on a UTC timestamp), in `[0, 24)`. -/
def hourOfTs (t : Timestamp) : Int := (t.utcSeconds.emod 86400).fdiv 3600

/-- Gregorian leap-year test. -/
def isLeapYear (y : Int) : Bool := (y % 4 = 0 ∧ y % 100 ≠ 0) ∨ y % 400 = 0

/-- Length of a month of the proleptic Gregorian calendar. -/
def daysInMonth (y : Int) (m : Nat) : Nat :=
  if m = 2 then (if isLeapYear y then 29 else 28)
  else if m = 4 ∨ m = 6 ∨ m = 9 ∨ m = 11 then 30
  else 31

/-- Days from 1970-01-01 to the civil date `y-m-d` (standard
era-of-400-years algorithm). -/
def daysFromCivil (y : Int) (m d : Nat) : Int :=
  let y' := if m ≤ 2 then y - 1 else y
  let era := y'.fdiv 400
  let yoe := y' - era * 400
  let mp := (m + 9) % 12
  let doy : Int := ((153 * mp + 2) / 5 + d - 1 : Nat)
  let doe : Int := yoe * 365 + yoe.fdiv 4 - yoe.fdiv 100 + doy
  era * 146097 + doe - 719468

/-- Numeric value of a UTC offset tail `±HH:MM`, `±HHMM` or `Z`, in
seconds. -/
def offsetVal (sg : Char) (hh mm : List Char) : Option Int :=
  if (sg = '+' ∨ sg = '-') ∧ allDigits hh = true ∧ allDigits mm = true then
    if digitsToNat hh ≤ 23 ∧ digitsToNat mm ≤ 59 then
      let v : Int := (digitsToNat hh : Int) * 3600 + (digitsToNat mm : Int) * 60
      some (if sg = '-' then -v else v)
    else none
  else none

/-- Parse the UTC-offset tail of an ISO-8601 timestamp. -/
def offsetSeconds (l : List Char) : Option Int :=
  match l with
  | ['Z'] => some 0
  | [sg, o1, o2, ':', o3, o4] => offsetVal sg [o1, o2] [o3, o4]
  | [sg, o1, o2, o3, o4] => offsetVal sg [o1, o2] [o3, o4]
  | _ => none

/-- Model of `pd.to_datetime(s).tz_convert(pytz.UTC)` on the ISO-8601
timestamps the forum markup carries: `YYYY-MM-DDTHH:MM:SS` plus a
mandatory UTC offset.  `none` models a raised exception: a parse failure
(`ValueError`) or, for an offset-less naive datetime, the `TypeError`
raised by `.tz_convert` — both are caught alike by the extractor. -/
def parseToUTC (s : String) : Option Timestamp :=
  match s.toList with
  | y1 :: y2 :: y3 :: y4 :: c1 :: m1 :: m2 :: c2 :: d1 :: d2 :: sep ::
      h1 :: h2 :: c3 :: n1 :: n2 :: c4 :: s1 :: s2 :: rest =>
    if c1 = '-' ∧ c2 = '-' ∧ c3 = ':' ∧ c4 = ':' ∧ (sep = 'T' ∨ sep = ' ') ∧
        allDigits [y1, y2, y3, y4, m1, m2, d1, d2, h1, h2, n1, n2, s1, s2] = true then
      let y : Int := (digitsToNat [y1, y2, y3, y4] : Int)
      let mo := digitsToNat [m1, m2]
      let da := digitsToNat [d1, d2]
      let ho : Int := (digitsToNat [h1, h2] : Int)
      let mi : Int := (digitsToNat [n1, n2] : Int)
      let se : Int := (digitsToNat [s1, s2] : Int)
      match offsetSeconds rest with
      | none => none
      | some off =>
        if 1 ≤ mo ∧ mo ≤ 12 ∧ 1 ≤ da ∧ da ≤ daysInMonth y mo ∧
            ho ≤ 23 ∧ mi ≤ 59 ∧ se ≤ 59 then
          some ⟨daysFromCivil y mo da * 86400 + ho * 3600 + mi * 60 + se - off⟩
        else none
    else none
  | _ => none

example : parseToUTC "1970-01-01T00:00:00+00:00" = some ⟨0⟩ := by decide
example : parseToUTC "2025-01-02T03:04:05+00:00" = some ⟨1735787045⟩ := by decide
example : parseToUTC "2025-01-02T03:04:05" = none := by decide
example : parseToUTC "zzz" = none := by decide

/-- One `<dl>` label/value pair inside a thread's statistics block:
`dt`/`dd` hold the element texts, `none` when the element is absent. -/
structure DlPair where
  dt : Option String
  dd : Option String
deriving DecidableEq

/-- The pieces of markup `extract_post_data` reads from one
`div.structItem--thread` node.  `title`/`author` are the texts of the
title element and the `a.username` element (`none` when absent);
`timeDatetime` is the `datetime` attribute of the first `time` element
(`none` when the element or the attribute is absent); `stats` is the
`div.structItem-cell--meta` block with its `dl` children. -/
structure ThreadNode where
  title : Option String
  author : Option String
  timeDatetime : Option String
  stats : Option (List DlPair)
deriving DecidableEq

/-- One extracted thread record (a row of the scraped dataset). -/
structure ThreadRecord where
  title : String
  author : String
  timestamp : Timestamp
  replies : Int
  views : Int
deriving DecidableEq

/-- Python `.strip()` on a `String`. -/
def strippedString (s : String) : String := String.mk (pyStripChars s.toList)

/-- Whether `pat` is an initial segment of `l`. -/
def startsWithChars : List Char → List Char → Bool
  | [], _ => true
  | _ :: _, [] => false
  | p :: ps, c :: cs => p = c && startsWithChars ps cs

/-- Python `pat in s` substring test on character lists. -/
def containsSub (pat : List Char) : List Char → Bool
  | [] => pat.isEmpty
  | c :: rest => startsWithChars pat (c :: rest) || containsSub pat rest

example : containsSub "Replies".toList "Replies:".toList = true := by decide
example : containsSub "Views".toList "Replies:".toList = false := by decide

/-- One iteration of the `for dl in dl_elements` loop (app.py:143-150):
when both `dt` and `dd` are present, a label containing `Replies` sets
the replies count, otherwise a label containing `Views` sets the views
count; other labels are ignored.  `_convert_abbreviated_number` may
raise, which aborts the node. -/
def statsStep (rv : Int × Int) (dl : DlPair) : Except PyExc (Int × Int) :=
  match dl.dt, dl.dd with
  | some dtTxt, some ddTxt =>
    if containsSub "Replies".toList dtTxt.toList = true then
      match _convert_abbreviated_number ddTxt with
      | .ok n => .ok (n, rv.2)
      | .error e => .error e
    else if containsSub "Views".toList dtTxt.toList = true then
      match _convert_abbreviated_number ddTxt with
      | .ok n => .ok (rv.1, n)
      | .error e => .error e
    else .ok rv
  | _, _ => .ok rv

/-- The `for dl in dl_elements` loop threading the `replies`/`views`
variables, with exception propagation. -/
def statsFold : Int × Int → List DlPair → Except PyExc (Int × Int)
  | rv, [] => .ok rv
  | rv, dl :: rest =>
    match statsStep rv dl with
    | .ok rv' => statsFold rv' rest
    | .error e => .error e

/-- Replies/views extraction (app.py:136-150): both default to `0`, and
stay `0` when the statistics block is absent. -/
def statsCounts : Option (List DlPair) → Except PyExc (Int × Int)
  | none => .ok (0, 0)
  | some dls => statsFold (0, 0) dls

/-- Author reading (app.py:128-129): the stripped element text, or the
sentinel `"Unknown"` when the author element is absent. -/
def authorOrUnknown (a : Option String) : String :=
  match a with
  | none => "Unknown"
  | some s => strippedString s

/-- The body of the per-node `try` block of `extract_post_data`
(app.py:125-158).  `.error e` is a raised exception (caught by the
enclosing `except`); `.ok none` is the silent no-record path taken when
the `time` element or its `datetime` attribute is absent or the
attribute value is falsy (the empty string); `.ok (some r)` is an
appended record. -/
def extractNodeBody (t : ThreadNode) : Except PyExc (Option ThreadRecord) :=
  match t.title with
  | none => .error .attributeError
  | some titleTxt =>
    match t.timeDatetime with
    | none => .ok none
    | some dtStr =>
      if dtStr = "" then .ok none
      else
        match parseToUTC dtStr with
        | none => .error .valueError
        | some ts =>
          match statsCounts t.stats with
          | .error e => .error e
          | .ok rv =>
            .ok (some ⟨strippedString titleTxt, authorOrUnknown t.author, ts, rv.1, rv.2⟩)

/-- The observable per-node result of `extract_post_data`: the record a
node contributes, or `none` when the node contributes nothing (either
silently or because an exception was caught, logged and the node
skipped). -/
def extractNode (t : ThreadNode) : Option ThreadRecord :=
  match extractNodeBody t with
  | .ok o => o
  | .error _ => none

/-- `IGNForumAnalyzer.extract_post_data` (app.py:120-160): iterate over
the page's thread nodes in document order; each node runs inside its own
`try` whose `except Exception` logs a warning and continues, so the
returned list is what this page appends to `self.posts_data`. -/
def extract_post_data (nodes : List ThreadNode) : List ThreadRecord :=
  nodes.foldl
    (fun acc t =>
      match extractNodeBody t with
      | .ok (some r) => acc ++ [r]
      | .ok none => acc
      | .error _ => acc)
    []

def exGoodNode : ThreadNode :=
  { title := some "Hello world"
    author := some "alice"
    timeDatetime := some "1970-01-01T00:00:00+00:00"
    stats := some [⟨some "Replies:", some "32K"⟩, ⟨some "Views:", some "1.5M"⟩] }

example : extract_post_data [exGoodNode] =
    [⟨"Hello world", "alice", ⟨0⟩, 32000, 1500000⟩] := by decide

/-- `IGNForumAnalyzer.scrape_pages` (app.py:162-177).  `fetch` is the
oracle for `fetch_page` (app.py:108-118), which returns the parsed page
or `None` after logging a fetch error.  The pipeline resets
`self.posts_data = []`, then for `page` in `1 .. num_pages` calls
`fetch_page` and, on success, appends that page's extracted records.
The first component records the pages at which a fetch attempt occurred,
in order; the second is the accumulated record list returned (as the
rows of `pd.DataFrame(self.posts_data)`). -/
def scrape_pages (fetch : Nat → Option (List ThreadNode)) (numPages : Nat) :
    List Nat × List ThreadRecord :=
  (List.range' 1 numPages).foldl
    (fun st page =>
      match fetch page with
      | some soup => (st.1 ++ [page], st.2 ++ extract_post_data soup)
      | none => (st.1 ++ [page], st.2))
    ([], [])

/-- Concatenation of per-page record lists, in page order. -/
def concatAll : List (List ThreadRecord) → List ThreadRecord
  | [] => []
  | x :: xs => x ++ concatAll xs

/-- The records a single fetch attempt contributes: a failed fetch
contributes nothing. -/
def pageRecords (fetch : Nat → Option (List ThreadNode)) (page : Nat) :
    List ThreadRecord :=
  match fetch page with
  | some soup => extract_post_data soup
  | none => []

/-- The column names of the dataframe built from the scraped records. -/
def baseCols : List String := ["title", "author", "timestamp", "replies", "views"]

/-- A pandas dataframe of thread records: its rows plus its column list.
Each row's cell values are functions of the `ThreadRecord` (the `date`
and `hour` columns are derived from `timestamp`), so tracking the column
names beside the rows captures the dataframe state. -/
structure DataFrame where
  records : List ThreadRecord
  cols : List String
deriving DecidableEq

/-- `df[c] = ...` column assignment: appends the column name when new. -/
def addCol (cols : List String) (c : String) : List String :=
  if c ∈ cols then cols else cols ++ [c]

/-- The row predicate of `filter_by_date`: the date projection lies in
the closed window `[startDate, endDate]`. -/
def inWindow (startDate endDate : Int) (r : ThreadRecord) : Bool :=
  decide (startDate ≤ dateOfTs r.timestamp) && decide (dateOfTs r.timestamp ≤ endDate)

/-- `filter_by_date` (app.py:185-193).  An empty input is returned
as-is.  Otherwise `df['date'] = df['timestamp'].dt.date` mutates the
input in place (adding a `date` column), and the kept rows are copied
into a new dataframe.  The first component is the state of the input
dataframe after the call; the second is the returned dataframe. -/
def filter_by_date (df : DataFrame) (startDate endDate : Int) :
    DataFrame × DataFrame :=
  if df.records = [] then (df, df)
  else
    let dfMut : DataFrame := { records := df.records, cols := addCol df.cols "date" }
    (dfMut, { records := dfMut.records.filter (inWindow startDate endDate), cols := dfMut.cols })

/-- Ordered insertion for ascending integer sorting (the sorted key
order a pandas `groupby` produces). -/
def insortInt (a : Int) : List Int → List Int
  | [] => [a]
  | b :: l => if a ≤ b then a :: b :: l else b :: insortInt a l

/-- Ascending sort of integer keys. -/
def sortInts (l : List Int) : List Int := l.foldr insortInt []

/-- `df.groupby(key).size()`: the distinct key values in ascending
order, each with the number of rows carrying it. -/
def groupby_size (key : ThreadRecord → Int) (recs : List ThreadRecord) :
    List (Int × Nat) :=
  (sortInts ((recs.map key).dedup)).map
    (fun k => (k, (recs.filter (fun r => decide (key r = k))).length))

/-- Count lookup in a groupby table (the `merge` key match). -/
def lookupSize (k : Int) (g : List (Int × Nat)) : Option Nat :=
  (g.find? (fun p => decide (p.1 = k))).map (fun p => p.2)

/-- `daily_activity` (app.py:520-521):
`filtered_df.groupby(filtered_df['timestamp'].dt.date).size()` — only
dates present in the data appear. -/
def daily_activity (recs : List ThreadRecord) : List (Int × Nat) :=
  groupby_size (fun r => dateOfTs r.timestamp) recs

/-- `hourly_counts` (app.py:543-548): group by the UTC hour column,
then left-merge onto the full `0 .. 23` hour table and `fillna(0)`, so
every hour appears exactly once, with `0` when no record matches. -/
def hourly_counts (recs : List ThreadRecord) : List (Int × Nat) :=
  (List.range 24).map
    (fun h =>
      ((h : Int),
        (lookupSize (h : Int) (groupby_size (fun r => hourOfTs r.timestamp) recs)).getD 0))

/-- Stable descending insertion by an integer key: walk past strictly
larger keys, so an equal-keyed element already in place (a later row of
the original order) stays behind the inserted one. -/
def insertDesc {α : Type} (key : α → Int) (a : α) : List α → List α
  | [] => [a]
  | b :: l => if key a < key b then b :: insertDesc key a l else a :: b :: l

/-- Stable descending sort by an integer key. -/
def sortDesc {α : Type} (key : α → Int) (l : List α) : List α :=
  l.foldr (insertDesc key) []

/-- `df.nlargest(n, column)` with the default `keep='first'`: the first
`n` rows of the stable descending sort by the column. -/
def nlargest {α : Type} (key : α → Int) (n : Nat) (l : List α) : List α :=
  (sortDesc key l).take n

/-- `filtered_df.nlargest(k, 'views')` (app.py:395). -/
def top_views (k : Nat) (recs : List ThreadRecord) : List ThreadRecord :=
  nlargest (fun r => r.views) k recs

/-- `filtered_df.nlargest(k, 'replies')` (app.py:418). -/
def top_replies (k : Nat) (recs : List ThreadRecord) : List ThreadRecord :=
  nlargest (fun r => r.replies) k recs

def c6recA : ThreadRecord := ⟨"A", "ua", ⟨0⟩, 3, 100⟩
def c6recB : ThreadRecord := ⟨"B", "ub", ⟨0⟩, 7, 100⟩
def c6recC : ThreadRecord := ⟨"C", "uc", ⟨0⟩, 9, 50⟩

example : top_views 2 [c6recA, c6recB, c6recC] = [c6recA, c6recB] := by decide
example : hourly_counts [⟨"A", "u", ⟨5 * 3600⟩, 0, 0⟩] =
    (List.range 24).map (fun h => ((h : Int), if h = 5 then 1 else 0)) := by decide

theorem extract_foldl_eq (nodes : List ThreadNode) :
    ∀ acc : List ThreadRecord,
      nodes.foldl
        (fun acc t =>
          match extractNodeBody t with
          | .ok (some r) => acc ++ [r]
          | .ok none => acc
          | .error _ => acc)
        acc
      = acc ++ nodes.filterMap extractNode := by
  induction nodes with
  | nil => intro acc; simp
  | cons t ts ih =>
    intro acc
    simp only [List.foldl_cons, List.filterMap_cons]
    cases h : extractNodeBody t with
    | ok o =>
      cases o with
      | some r => simp [extractNode, h, ih]
      | none => simp [extractNode, h, ih]
    | error e => simp [extractNode, h, ih]

theorem extract_eq_filterMap (nodes : List ThreadNode) :
    extract_post_data nodes = nodes.filterMap extractNode := by
  have h := extract_foldl_eq nodes []
  simpa [extract_post_data] using h

theorem scrape_foldl_eq (fetch : Nat → Option (List ThreadNode)) (pages : List Nat) :
    ∀ st : List Nat × List ThreadRecord,
      pages.foldl
        (fun st page =>
          match fetch page with
          | some soup => (st.1 ++ [page], st.2 ++ extract_post_data soup)
          | none => (st.1 ++ [page], st.2))
        st
      = (st.1 ++ pages, st.2 ++ concatAll (pages.map (pageRecords fetch))) := by
  induction pages with
  | nil => intro st; simp [concatAll]
  | cons p ps ih =>
    intro st
    simp only [List.foldl_cons, List.map_cons, concatAll]
    cases h : fetch p with
    | some soup =>
      rw [ih]
      simp [pageRecords, h, List.append_assoc]
    | none =>
      rw [ih]
      simp [pageRecords, h]

theorem scrape_pages_eq (fetch : Nat → Option (List ThreadNode)) (n : Nat) :
    scrape_pages fetch n =
      (List.range' 1 n, concatAll ((List.range' 1 n).map (pageRecords fetch))) := by
  have h := scrape_foldl_eq fetch (List.range' 1 n) ([], [])
  simpa [scrape_pages] using h

theorem insertDesc_perm {α : Type} (key : α → Int) (a : α) (l : List α) :
    List.Perm (insertDesc key a l) (a :: l) := by
  induction l with
  | nil => simp [insertDesc]
  | cons b t ih =>
    by_cases hcmp : key a < key b
    · simp only [insertDesc, if_pos hcmp]
      exact (ih.cons b).trans (List.Perm.swap a b t)
    · simp [insertDesc, if_neg hcmp]

theorem sortDesc_perm {α : Type} (key : α → Int) (l : List α) :
    List.Perm (sortDesc key l) l := by
  induction l with
  | nil => simp [sortDesc]
  | cons a t ih =>
    have h1 : List.Perm (insertDesc key a (sortDesc key t)) (a :: sortDesc key t) :=
      insertDesc_perm key a (sortDesc key t)
    exact h1.trans (ih.cons a)

theorem mem_insertDesc {α : Type} {key : α → Int} {a x : α} {l : List α} :
    x ∈ insertDesc key a l ↔ x = a ∨ x ∈ l := by
  constructor
  · intro h
    have := (insertDesc_perm key a l).mem_iff.mp h
    simpa using this
  · intro h
    apply (insertDesc_perm key a l).mem_iff.mpr
    simpa using h

theorem insertDesc_sorted {α : Type} (key : α → Int) (a : α) (l : List α)
    (h : l.Pairwise (fun x y => key y ≤ key x)) :
    (insertDesc key a l).Pairwise (fun x y => key y ≤ key x) := by
  induction l with
  | nil => simp [insertDesc]
  | cons b t ih =>
    rw [List.pairwise_cons] at h
    obtain ⟨hb, ht⟩ := h
    by_cases hcmp : key a < key b
    · simp only [insertDesc, if_pos hcmp]
      rw [List.pairwise_cons]
      refine ⟨?_, ih ht⟩
      intro y hy
      rcases mem_insertDesc.mp hy with h1 | h1
      · subst h1; exact le_of_lt hcmp
      · exact hb y h1
    · simp only [insertDesc, if_neg hcmp]
      rw [List.pairwise_cons]
      constructor
      · intro y hy
        rcases List.mem_cons.mp hy with h1 | h1
        · subst h1; omega
        · have := hb y h1; omega
      · rw [List.pairwise_cons]; exact ⟨hb, ht⟩

theorem sortDesc_sorted {α : Type} (key : α → Int) (l : List α) :
    (sortDesc key l).Pairwise (fun x y => key y ≤ key x) := by
  induction l with
  | nil => simp [sortDesc]
  | cons a t ih => exact insertDesc_sorted key a (sortDesc key t) ih

theorem insertDesc_filter_key {α : Type} (key : α → Int) (v : Int) (a : α)
    (l : List α) :
    (insertDesc key a l).filter (fun x => decide (key x = v))
      = (a :: l).filter (fun x => decide (key x = v)) := by
  induction l with
  | nil => rfl
  | cons b t ih =>
    by_cases hcmp : key a < key b
    · simp only [insertDesc, if_pos hcmp, List.filter_cons]
      rw [ih]
      simp only [List.filter_cons]
      by_cases ha : key a = v
      · have hb : ¬ key b = v := by omega
        simp [ha, hb]
      · by_cases hb : key b = v
        · simp [ha, hb]
        · simp [ha, hb]
    · simp [insertDesc, if_neg hcmp]

theorem sortDesc_filter_key {α : Type} (key : α → Int) (v : Int) (l : List α) :
    (sortDesc key l).filter (fun x => decide (key x = v))
      = l.filter (fun x => decide (key x = v)) := by
  induction l with
  | nil => simp [sortDesc]
  | cons a t ih =>
    have h1 := insertDesc_filter_key key v a (sortDesc key t)
    calc (sortDesc key (a :: t)).filter (fun x => decide (key x = v))
        = (a :: sortDesc key t).filter (fun x => decide (key x = v)) := h1
      _ = (a :: t).filter (fun x => decide (key x = v)) := by
          simp only [List.filter_cons]
          rw [ih]

theorem mem_insortInt {a x : Int} {l : List Int} :
    x ∈ insortInt a l ↔ x = a ∨ x ∈ l := by
  induction l with
  | nil => simp [insortInt]
  | cons b t ih =>
    by_cases h : a ≤ b
    · simp [insortInt, if_pos h]
    · simp only [insortInt, if_neg h, List.mem_cons, ih]
      tauto

theorem mem_sortInts {x : Int} {l : List Int} : x ∈ sortInts l ↔ x ∈ l := by
  induction l with
  | nil => simp [sortInts]
  | cons a t ih =>
    show x ∈ insortInt a (sortInts t) ↔ _
    rw [mem_insortInt, ih]
    simp

theorem lookupSize_map_keys (h : Int) (keys : List Int) (f : Int → Nat) :
    lookupSize h (keys.map (fun k => (k, f k)))
      = if h ∈ keys then some (f h) else none := by
  induction keys with
  | nil => simp [lookupSize]
  | cons k ks ih =>
    by_cases hk : k = h
    · subst hk
      simp [lookupSize, List.find?]
    · have hd : decide (k = h) = false := by simp [hk]
      have hne : ¬ h = k := fun hh => hk hh.symm
      simp only [List.map_cons, lookupSize, List.find?, hd]
      simp only [lookupSize] at ih
      rw [ih]
      simp [List.mem_cons, hne]

theorem groupby_size_lookup (key : ThreadRecord → Int) (recs : List ThreadRecord)
    (h : Int) :
    (lookupSize h (groupby_size key recs)).getD 0
      = (recs.filter (fun r => decide (key r = h))).length := by
  unfold groupby_size
  rw [lookupSize_map_keys]
  by_cases hmem : h ∈ sortInts ((recs.map key).dedup)
  · rw [if_pos hmem]; rfl
  · rw [if_neg hmem]
    have h1 : h ∉ recs.map key := by
      intro hh
      exact hmem (mem_sortInts.mpr (List.mem_dedup.mpr hh))
    have h2 : recs.filter (fun r => decide (key r = h)) = [] := by
      rw [List.filter_eq_nil_iff]
      intro r hr hkey
      exact h1 (List.mem_map.mpr ⟨r, hr, by simpa using hkey⟩)
    simp [h2]

theorem hourly_counts_eq (recs : List ThreadRecord) :
    hourly_counts recs
      = (List.range 24).map
          (fun h => ((h : Int),
            (recs.filter (fun r => decide (hourOfTs r.timestamp = (h : Int)))).length)) := by
  unfold hourly_counts
  apply List.map_congr_left
  intro h _
  rw [groupby_size_lookup]

theorem daily_activity_mem (recs : List ThreadRecord) (d : Int) (c : Nat) :
    (d, c) ∈ daily_activity recs ↔
      ((∃ r ∈ recs, dateOfTs r.timestamp = d) ∧
        c = (recs.filter (fun r => decide (dateOfTs r.timestamp = d))).length) := by
  unfold daily_activity groupby_size
  rw [List.mem_map]
  constructor
  · rintro ⟨k, hk, hkeq⟩
    have hkd : k = d := congrArg Prod.fst hkeq
    subst hkd
    have hc : c = (recs.filter (fun r => decide (dateOfTs r.timestamp = k))).length :=
      (congrArg Prod.snd hkeq).symm
    have hmem : k ∈ recs.map (fun r => dateOfTs r.timestamp) :=
      List.mem_dedup.mp (mem_sortInts.mp hk)
    obtain ⟨r, hr, hrd⟩ := List.mem_map.mp hmem
    exact ⟨⟨r, hr, hrd⟩, hc⟩
  · rintro ⟨⟨r, hr, hrd⟩, hc⟩
    refine ⟨d, ?_, ?_⟩
    · exact mem_sortInts.mpr (List.mem_dedup.mpr (List.mem_map.mpr ⟨r, hr, hrd⟩))
    · rw [hc]

theorem extractNode_eq_some {t : ThreadNode} {r : ThreadRecord} :
    extractNode t = some r ↔ extractNodeBody t = .ok (some r) := by
  unfold extractNode
  cases h : extractNodeBody t with
  | ok o => simp
  | error e => simp

theorem extractNode_some_shape (t : ThreadNode) (r : ThreadRecord)
    (h : extractNode t = some r) :
    ∃ titleTxt dtStr ts rv,
      t.title = some titleTxt ∧ t.timeDatetime = some dtStr ∧ dtStr ≠ "" ∧
      parseToUTC dtStr = some ts ∧ statsCounts t.stats = Except.ok rv ∧
      r = ⟨strippedString titleTxt, authorOrUnknown t.author, ts, rv.1, rv.2⟩ := by
  rw [extractNode_eq_some] at h
  unfold extractNodeBody at h
  cases ht : t.title with
  | none => simp [ht] at h
  | some titleTxt =>
    simp only [ht] at h
    cases htd : t.timeDatetime with
    | none => simp [htd] at h
    | some dtStr =>
      simp only [htd] at h
      by_cases hempty : dtStr = ""
      · simp [if_pos hempty] at h
      · simp only [if_neg hempty] at h
        cases hts : parseToUTC dtStr with
        | none => simp [hts] at h
        | some ts =>
          simp only [hts] at h
          cases hsc : statsCounts t.stats with
          | error e => simp [hsc] at h
          | ok rv =>
            simp only [hsc, Except.ok.injEq, Option.some.injEq] at h
            exact ⟨titleTxt, dtStr, ts, rv, rfl, rfl, hempty, hts, rfl, h.symm⟩

theorem extractNode_none_of_no_timestamp (t : ThreadNode)
    (h : t.timeDatetime = none ∨ ∀ s, t.timeDatetime = some s → parseToUTC s = none) :
    extractNode t = none := by
  unfold extractNode extractNodeBody
  cases ht : t.title with
  | none => rfl
  | some titleTxt =>
    cases htd : t.timeDatetime with
    | none => rfl
    | some dtStr =>
      rcases h with h | h
      · rw [htd] at h; exact absurd h (by simp)
      · have hp : parseToUTC dtStr = none := h dtStr htd
        by_cases hempty : dtStr = ""
        · simp [if_pos hempty]
        · simp [if_neg hempty, hp]

theorem mem_of_mem_pyStrip {c : Char} {l : List Char} (h : c ∈ pyStripChars l) :
    c ∈ l := by
  unfold pyStripChars at h
  rw [List.mem_reverse] at h
  have h1 := (List.dropWhile_sublist isPySpace).subset h
  rw [List.mem_reverse] at h1
  exact (List.dropWhile_sublist isPySpace).subset h1

theorem toUpper_eq_dash {c : Char} (h : c.toUpper = '-') : c = '-' := by
  have h' : (if c.toNat ≥ 97 ∧ c.toNat ≤ 122 then Char.ofNat (c.toNat - 32) else c)
      = '-' := h
  by_cases hc : c.toNat ≥ 97 ∧ c.toNat ≤ 122
  · rw [if_pos hc] at h'
    exfalso
    obtain ⟨m, hm⟩ : ∃ m, c.toNat - 32 = m := ⟨_, rfl⟩
    rw [hm] at h'
    have h1 : 65 ≤ m := by omega
    have h2 : m ≤ 90 := by omega
    interval_cases m <;> exact absurd h' (by decide)
  · rw [if_neg hc] at h'
    exact h'

theorem noDash_normCount {s : String} (h : '-' ∉ s.toList) : '-' ∉ normCount s := by
  intro hmem
  unfold normCount at hmem
  have h1 := List.mem_of_mem_filter hmem
  obtain ⟨c, hc, hcu⟩ := List.mem_map.mp h1
  have hcd : c = '-' := toUpper_eq_dash hcu
  subst hcd
  exact h (mem_of_mem_pyStrip hc)

theorem splitSign_of_noDash {l : List Char} (h : '-' ∉ l) :
    (splitSign l).1 = 1 ∧ '-' ∉ (splitSign l).2 := by
  cases l with
  | nil => simp [splitSign]
  | cons c rest =>
    have hd : ¬ c = '-' := fun hh => h (hh ▸ List.mem_cons_self c rest)
    by_cases hp : c = '+'
    · refine ⟨by simp [splitSign, hp], ?_⟩
      simp only [splitSign, if_pos hp]
      intro hm
      exact h (List.mem_cons_of_mem c hm)
    · refine ⟨by simp [splitSign, hp, hd], ?_⟩
      simp only [splitSign, if_neg hp, if_neg hd]
      exact h

/-- The sign condition the non-negativity argument tracks through the
float pipeline. -/
def nonnegFloat : PyFloat → Prop
  | .finite num _ => 0 ≤ num
  | .neginf => False
  | _ => True

theorem capFloat_nonneg {num : Int} {den : Nat} (h : 0 ≤ num) :
    nonnegFloat (capFloat num den) := by
  unfold capFloat
  by_cases h1 : 16 ^ 256 * den ≤ num.natAbs
  · rw [if_pos h1]
    by_cases h2 : num < 0
    · omega
    · rw [if_neg h2]
      trivial
  · rw [if_neg h1]
    exact h

theorem pyFloatDecimal_one_nonneg {l : List Char} {f : PyFloat}
    (h : pyFloatDecimal 1 l = some f) : nonnegFloat f := by
  simp only [pyFloatDecimal] at h
  split at h
  · split at h
    · rw [Option.some.injEq] at h
      subst h
      exact capFloat_nonneg (by positivity)
    · split at h
      · split at h
        · rw [Option.some.injEq] at h
          subst h
          exact capFloat_nonneg (by positivity)
        · rw [Option.some.injEq] at h
          subst h
          exact capFloat_nonneg (by positivity)
      · exact Option.noConfusion h
  · exact Option.noConfusion h

theorem pyFloatBody_one_nonneg {l : List Char} {f : PyFloat}
    (h : pyFloatBody 1 l = some f) : nonnegFloat f := by
  unfold pyFloatBody at h
  split at h
  · rw [Option.some.injEq] at h
    subst h
    rw [if_neg (by decide : ¬ (1 : Int) = -1)]
    trivial
  · split at h
    · rw [Option.some.injEq] at h
      subst h
      trivial
    · exact pyFloatDecimal_one_nonneg h

theorem pyFloatOfChars_noDash_nonneg {l : List Char} (hd : '-' ∉ l) {f : PyFloat}
    (h : pyFloatOfChars l = some f) : nonnegFloat f := by
  simp only [pyFloatOfChars] at h
  have hs := splitSign_of_noDash (l := pyStripChars l)
    (fun hm => hd (mem_of_mem_pyStrip hm))
  rw [hs.1] at h
  exact pyFloatBody_one_nonneg h

theorem pyMulNat_nonneg {f : PyFloat} (h : nonnegFloat f) (m : Nat) :
    nonnegFloat (pyMulNat f m) := by
  cases f with
  | finite num den =>
    exact capFloat_nonneg (mul_nonneg h (Int.natCast_nonneg m))
  | inf => trivial
  | neginf => exact h.elim
  | nan => trivial

theorem pyIntOfChars_noDash_nonneg {l : List Char} (hd : '-' ∉ l) {n : Int}
    (h : pyIntOfChars l = some n) : 0 ≤ n := by
  simp only [pyIntOfChars] at h
  have hs := splitSign_of_noDash (l := pyStripChars l)
    (fun hm => hd (mem_of_mem_pyStrip hm))
  split at h
  · rw [Option.some.injEq] at h
    subst h
    rw [hs.1, one_mul]
    exact Int.natCast_nonneg _
  · exact Option.noConfusion h

theorem suffixMult_pre {l : List Char} {pm : List Char × Nat}
    (h : suffixMult l = some pm) : pm.1 = l.dropLast := by
  unfold suffixMult at h
  split at h
  · rw [Option.some.injEq] at h; rw [← h]
  · rw [Option.some.injEq] at h; rw [← h]
  · rw [Option.some.injEq] at h; rw [← h]
  · exact Option.noConfusion h

theorem conv_nonneg_of_noDash {s : String} (hs : '-' ∉ s.toList) {n : Int}
    (h : _convert_abbreviated_number s = .ok n) : 0 ≤ n := by
  have hnr : '-' ∉ normCount s := noDash_normCount hs
  simp only [_convert_abbreviated_number] at h
  cases hsm : suffixMult (normCount s) with
  | none =>
    simp only [hsm, Except.ok.injEq] at h
    cases hpi : pyIntOfChars (normCount s) with
    | none => simp [hpi] at h; omega
    | some m =>
      simp only [hpi, Option.getD_some] at h
      subst h
      exact pyIntOfChars_noDash_nonneg hnr hpi
  | some pm =>
    simp only [hsm] at h
    have hpre : '-' ∉ pm.1 := by
      rw [suffixMult_pre hsm]
      intro hm
      exact hnr ((List.dropLast_sublist (normCount s)).subset hm)
    cases hf : pyFloatOfChars pm.1 with
    | none =>
      simp only [hf, Except.ok.injEq] at h
      omega
    | some f =>
      simp only [hf] at h
      have hnn := pyMulNat_nonneg (pyFloatOfChars_noDash_nonneg hpre hf) pm.2
      cases hmm : pyMulNat f pm.2 with
      | finite num den =>
        simp only [hmm, pyFloatToInt, Except.ok.injEq] at h
        subst h
        exact Int.tdiv_nonneg (by rw [hmm] at hnn; exact hnn) (Int.natCast_nonneg den)
      | inf =>
        simp [hmm, pyFloatToInt] at h
      | neginf =>
        rw [hmm] at hnn
        exact hnn.elim
      | nan =>
        simp only [hmm, pyFloatToInt, Except.ok.injEq] at h
        omega

theorem statsStep_nonneg {acc acc' : Int × Int} {dl : DlPair}
    (hdl : ∀ dd : String, dl.dd = some dd → '-' ∉ dd.toList)
    (h1 : 0 ≤ acc.1) (h2 : 0 ≤ acc.2)
    (h : statsStep acc dl = .ok acc') : 0 ≤ acc'.1 ∧ 0 ≤ acc'.2 := by
  unfold statsStep at h
  cases hdt : dl.dt with
  | none =>
    simp only [hdt, Except.ok.injEq] at h
    subst h
    exact ⟨h1, h2⟩
  | some dtTxt =>
    cases hdd : dl.dd with
    | none =>
      simp only [hdt, hdd, Except.ok.injEq] at h
      subst h
      exact ⟨h1, h2⟩
    | some ddTxt =>
      simp only [hdt, hdd] at h
      have hnd : '-' ∉ ddTxt.toList := hdl ddTxt hdd
      by_cases hrep : containsSub "Replies".toList dtTxt.toList = true
      · rw [if_pos hrep] at h
        cases hc : _convert_abbreviated_number ddTxt with
        | ok n =>
          simp only [hc, Except.ok.injEq] at h
          subst h
          exact ⟨conv_nonneg_of_noDash hnd hc, h2⟩
        | error e => simp [hc] at h
      · rw [if_neg hrep] at h
        by_cases hvw : containsSub "Views".toList dtTxt.toList = true
        · rw [if_pos hvw] at h
          cases hc : _convert_abbreviated_number ddTxt with
          | ok n =>
            simp only [hc, Except.ok.injEq] at h
            subst h
            exact ⟨h1, conv_nonneg_of_noDash hnd hc⟩
          | error e => simp [hc] at h
        · rw [if_neg hvw] at h
          simp only [Except.ok.injEq] at h
          subst h
          exact ⟨h1, h2⟩

theorem statsFold_nonneg (dls : List DlPair)
    (hdd : ∀ dl ∈ dls, ∀ dd : String, dl.dd = some dd → '-' ∉ dd.toList) :
    ∀ acc : Int × Int, 0 ≤ acc.1 → 0 ≤ acc.2 →
      ∀ rv, statsFold acc dls = .ok rv → 0 ≤ rv.1 ∧ 0 ≤ rv.2 := by
  induction dls with
  | nil =>
    intro acc h1 h2 rv h
    simp only [statsFold, Except.ok.injEq] at h
    subst h
    exact ⟨h1, h2⟩
  | cons dl rest ih =>
    intro acc h1 h2 rv h
    simp only [statsFold] at h
    cases hstep : statsStep acc dl with
    | error e => simp [hstep] at h
    | ok acc' =>
      simp only [hstep] at h
      have hdl := hdd dl (List.mem_cons_self dl rest)
      have hrest : ∀ d ∈ rest, ∀ dd : String, d.dd = some dd → '-' ∉ dd.toList :=
        fun d hd => hdd d (List.mem_cons_of_mem dl hd)
      have hacc' := statsStep_nonneg hdl h1 h2 hstep
      exact ih hrest acc' hacc'.1 hacc'.2 rv h

theorem conv_spec (s : String) :
    _convert_abbreviated_number s =
      if overflowCond s = true then .error .overflowError
      else .ok (convResult s) := by
  cases hsm : suffixMult (normCount s) with
  | none =>
    simp [_convert_abbreviated_number, overflowCond, convResult, hsm]
  | some pm =>
    cases hf : pyFloatOfChars pm.1 with
    | none =>
      simp [_convert_abbreviated_number, overflowCond, convResult, hsm, hf]
    | some f =>
      cases hmm : pyMulNat f pm.2 with
      | finite num den =>
        simp [_convert_abbreviated_number, overflowCond, convResult, hsm, hf, hmm,
          pyFloatToInt]
      | inf =>
        simp [_convert_abbreviated_number, overflowCond, convResult, hsm, hf, hmm,
          pyFloatToInt]
      | neginf =>
        simp [_convert_abbreviated_number, overflowCond, convResult, hsm, hf, hmm,
          pyFloatToInt]
      | nan =>
        simp [_convert_abbreviated_number, overflowCond, convResult, hsm, hf, hmm,
          pyFloatToInt]

def c1Good : ThreadNode :=
  { title := some "Good thread"
    author := some "alice"
    timeDatetime := some "2025-06-01T12:30:00+00:00"
    stats := some [⟨some "Replies:", some "4"⟩, ⟨some "Views:", some "1.2K"⟩] }

def c1Bad : ThreadNode :=
  { title := some "Bad thread"
    author := some "bob"
    timeDatetime := some "not-a-timestamp"
    stats := some [] }

/-- C1: extraction is isolated per thread node.  `extract_post_data`
equals the per-node `filterMap` of the caught per-node results, so one
node's exception (the `.error` branch of `extractNodeBody`, logged and
skipped in the source) never drops the remaining nodes, and the result
is exactly the records of the succeeding nodes in node order.  In
particular a page with one well-formed node and one node with an
unparsable timestamp yields exactly the one record of the good node, and
`extract_post_data` is a total function (no exception escapes). -/
theorem extract_isolates_node_failures :
    (∀ nodes : List ThreadNode, extract_post_data nodes = nodes.filterMap extractNode)
  ∧ extract_post_data [c1Good, c1Bad] = extract_post_data [c1Good]
  ∧ (extract_post_data [c1Good, c1Bad]).length = 1 := by
  refine ⟨extract_eq_filterMap, ?_, ?_⟩
  · decide
  · decide

/-- C2 counterexample: `parse` can raise.  On `"infK"` the suffix prefix
parses as `float("INF") = inf`, and `int(inf)` raises `OverflowError`,
which the `except ValueError` handler does not catch — so
`_convert_abbreviated_number` raises instead of returning an integer. -/
theorem convert_raises_overflow_on_inf_suffix :
    _convert_abbreviated_number "infK" = .error .overflowError := by decide

/-- C2 (amended): the reference algorithm and its example values hold,
and `parse` returns an integer on every input except exactly those whose
recognised-suffix prefix parses as an infinite float (where an
`OverflowError` escapes), as characterised by `overflowCond`. -/
theorem convert_examples_and_totality :
    _convert_abbreviated_number "32K" = .ok 32000
  ∧ _convert_abbreviated_number "1.5M" = .ok 1500000
  ∧ _convert_abbreviated_number "1,234" = .ok 1234
  ∧ _convert_abbreviated_number "abc" = .ok 0
  ∧ _convert_abbreviated_number "" = .ok 0
  ∧ ∀ s : String,
      _convert_abbreviated_number s =
        if overflowCond s = true then .error .overflowError
        else .ok (convResult s) :=
  ⟨by decide, by decide, by decide, by decide, by decide, conv_spec⟩

/-- C3: `scrape_pages` performs exactly `n` fetch attempts, for pages
`1` through `n` in ascending order, and returns (from a fresh empty
accumulator) the concatenation, in page order, of the records extracted
from each successful fetch; a failed fetch contributes `[]` and does not
abort the remaining pages.  Proved for every `n`, hence for every
`pageCount ≥ 1`. -/
theorem scrape_attempts_and_concat :
    ∀ (fetch : Nat → Option (List ThreadNode)) (n : Nat),
      (scrape_pages fetch n).1 = List.range' 1 n
    ∧ (scrape_pages fetch n).1.length = n
    ∧ (scrape_pages fetch n).2 = concatAll ((List.range' 1 n).map (pageRecords fetch)) := by
  intro fetch n
  rw [scrape_pages_eq]
  exact ⟨rfl, by simp, rfl⟩

/-- C4: `filter_by_date` keeps exactly the records whose UTC
calendar-date projection lies in the closed window `[s, e]`; membership
in the output depends only on the date projection (time of day plays no
role), and both boundary dates are included. -/
theorem filter_by_date_window_semantics :
    ∀ (df : DataFrame) (s e : Int),
      (filter_by_date df s e).2.records = df.records.filter (inWindow s e)
    ∧ ∀ r : ThreadRecord,
        r ∈ (filter_by_date df s e).2.records ↔
          (r ∈ df.records ∧ s ≤ dateOfTs r.timestamp ∧ dateOfTs r.timestamp ≤ e) := by
  intro df s e
  have h1 : (filter_by_date df s e).2.records = df.records.filter (inWindow s e) := by
    unfold filter_by_date
    by_cases h : df.records = []
    · rw [if_pos h]
      simp [h]
    · rw [if_neg h]
  refine ⟨h1, ?_⟩
  intro r
  rw [h1, List.mem_filter]
  simp [inWindow, and_assoc]

def c4Df : DataFrame :=
  { records := [⟨"Boundary", "u", ⟨86400 * 20089 + 86399⟩, 0, 0⟩], cols := baseCols }

/-- C4 witness: a record timestamped 2025-01-01 23:59:59 UTC (day 20089,
the start boundary, at the last second of the day) is kept by the window
2025-01-01 .. 2025-01-03. -/
theorem filter_by_date_window_semantics_witness :
    (⟨"Boundary", "u", ⟨86400 * 20089 + 86399⟩, 0, 0⟩ : ThreadRecord) ∈
      (filter_by_date c4Df 20089 20091).2.records :=
  ((filter_by_date_window_semantics c4Df 20089 20091).2 _).mpr
    ⟨by decide, by decide, by decide⟩

/-- C5: `hourly_counts` always has exactly 24 entries, one per hour
`0 .. 23` in order, hour `h` carrying the number of records whose UTC
hour is `h` (an explicit `0` when none matches); `daily_activity` has an
entry exactly for each calendar date present in the data, carrying that
date's record count (no zero-filled dates). -/
theorem time_bucket_counts :
    ∀ recs : List ThreadRecord,
      (hourly_counts recs).length = 24
    ∧ hourly_counts recs = (List.range 24).map
        (fun h => ((h : Int),
          (recs.filter (fun r => decide (hourOfTs r.timestamp = (h : Int)))).length))
    ∧ ∀ (d : Int) (c : Nat),
        (d, c) ∈ daily_activity recs ↔
          ((∃ r ∈ recs, dateOfTs r.timestamp = d) ∧
            c = (recs.filter (fun r => decide (dateOfTs r.timestamp = d))).length) := by
  intro recs
  exact ⟨rfl, hourly_counts_eq recs, daily_activity_mem recs⟩

/-- C5 witness: on a one-record dataset timestamped 1970-01-01 05:00:00
UTC, `daily_activity` carries the entry for epoch day 0 with count 1. -/
theorem time_bucket_counts_witness :
    ((0 : Int), (1 : Nat)) ∈ daily_activity [⟨"A", "u", ⟨18000⟩, 0, 0⟩] :=
  ((time_bucket_counts [⟨"A", "u", ⟨18000⟩, 0, 0⟩]).2.2 0 1).mpr
    ⟨⟨⟨"A", "u", ⟨18000⟩, 0, 0⟩, by decide, by decide⟩, by decide⟩

/-- C6: `top_views k` / `top_replies k` take the first `k` rows of a
sort that is a permutation of the input, descending in the ranked field,
and stable (records with any given field value keep their original
relative order) — i.e. the `k` records with the largest field value with
ties broken by original dataset order.  In particular, on views
`[100, 100, 50]` in that order, `top_views 2` returns the first two
records, not the third. -/
theorem top_k_stable_ranking :
    (∀ (k : Nat) (l : List ThreadRecord),
        top_views k l = (sortDesc (fun r => r.views) l).take k
      ∧ List.Perm (sortDesc (fun r => r.views) l) l
      ∧ (sortDesc (fun r => r.views) l).Pairwise (fun a b => b.views ≤ a.views)
      ∧ ∀ v : Int,
          (sortDesc (fun r => r.views) l).filter (fun r => decide (r.views = v))
            = l.filter (fun r => decide (r.views = v)))
  ∧ (∀ (k : Nat) (l : List ThreadRecord),
        top_replies k l = (sortDesc (fun r => r.replies) l).take k
      ∧ List.Perm (sortDesc (fun r => r.replies) l) l
      ∧ (sortDesc (fun r => r.replies) l).Pairwise (fun a b => b.replies ≤ a.replies)
      ∧ ∀ v : Int,
          (sortDesc (fun r => r.replies) l).filter (fun r => decide (r.replies = v))
            = l.filter (fun r => decide (r.replies = v)))
  ∧ top_views 2 [c6recA, c6recB, c6recC] = [c6recA, c6recB] := by
  refine ⟨?_, ?_, by decide⟩
  · intro k l
    exact ⟨rfl, sortDesc_perm _ l, sortDesc_sorted _ l, fun v => sortDesc_filter_key _ v l⟩
  · intro k l
    exact ⟨rfl, sortDesc_perm _ l, sortDesc_sorted _ l, fun v => sortDesc_filter_key _ v l⟩

/-- C7: per-node field handling.  An absent author element yields the
sentinel `"Unknown"`; an absent statistics block yields
`replies = views = 0`; an absent or unparsable timestamp yields no
record at all. -/
theorem extraction_field_defaults :
    ∀ t : ThreadNode,
      (t.author = none → ∀ r, extractNode t = some r → r.author = "Unknown")
    ∧ (t.stats = none → ∀ r, extractNode t = some r → r.replies = 0 ∧ r.views = 0)
    ∧ ((t.timeDatetime = none ∨ ∀ s, t.timeDatetime = some s → parseToUTC s = none) →
        extractNode t = none) := by
  intro t
  refine ⟨?_, ?_, extractNode_none_of_no_timestamp t⟩
  · intro ha r h
    obtain ⟨tt, ds, ts, rv, _, _, _, _, _, hr⟩ := extractNode_some_shape t r h
    subst hr
    simp [authorOrUnknown, ha]
  · intro hs r h
    obtain ⟨tt, ds, ts, rv, _, _, _, _, hsc, hr⟩ := extractNode_some_shape t r h
    subst hr
    rw [hs] at hsc
    simp only [statsCounts, Except.ok.injEq] at hsc
    constructor
    · simp [← hsc]
    · simp [← hsc]

def c7NodeAuthor : ThreadNode :=
  ⟨some "T", none, some "1970-01-01T00:00:00+00:00", some []⟩

def c7NodeStats : ThreadNode :=
  ⟨some "T", some "bob", some "1970-01-01T00:00:00+00:00", none⟩

def c7NodeNoTs : ThreadNode :=
  ⟨some "T", some "bob", none, some []⟩

def c7RecAuthor : ThreadRecord := ⟨"T", "Unknown", ⟨0⟩, 0, 0⟩

def c7RecStats : ThreadRecord := ⟨"T", "bob", ⟨0⟩, 0, 0⟩

/-- C7 witness: the three defaulting rules instantiated on concrete
nodes. -/
theorem extraction_field_defaults_witness :
    c7RecAuthor.author = "Unknown"
  ∧ (c7RecStats.replies = 0 ∧ c7RecStats.views = 0)
  ∧ extractNode c7NodeNoTs = none :=
  ⟨(extraction_field_defaults c7NodeAuthor).1 rfl c7RecAuthor (by decide),
   (extraction_field_defaults c7NodeStats).2.1 rfl c7RecStats (by decide),
   (extraction_field_defaults c7NodeNoTs).2.2 (Or.inl rfl)⟩

def c8Df : DataFrame := { records := [⟨"T", "a", ⟨0⟩, 1, 2⟩], cols := baseCols }

/-- C8 counterexample: `filter_by_date` does not leave a nonempty input
unchanged — `df['date'] = df['timestamp'].dt.date` adds a `date` column
to the input dataframe in place, so the post-call input state differs
from the input. -/
theorem filter_by_date_mutates_input :
    (filter_by_date c8Df 0 10).1 ≠ c8Df := by decide

/-- C8 (amended): `filter_by_date` never changes the input's records,
and its only in-place effect on a nonempty input is adding the `date`
column (the UTC calendar-date projection of `timestamp`); an empty input
is returned as-is, untouched. -/
theorem filter_by_date_mutation_scope :
    ∀ (df : DataFrame) (s e : Int),
      (filter_by_date df s e).1.records = df.records
    ∧ (filter_by_date df s e).1.cols =
        (if df.records = [] then df.cols else addCol df.cols "date") := by
  intro df s e
  unfold filter_by_date
  by_cases h : df.records = []
  · rw [if_pos h]
    exact ⟨rfl, by rw [if_pos h]⟩
  · rw [if_neg h]
    exact ⟨rfl, by rw [if_neg h]⟩

def c9Node : ThreadNode :=
  ⟨some "T", some "a", some "1970-01-01T00:00:00+00:00",
   some [⟨some "Replies:", some "-5"⟩]⟩

/-- C9 counterexample: a count text with a minus sign is parsed
literally (`int("-5") = -5`), so extraction produces a record with a
negative `replies` field. -/
theorem extraction_negative_count_cex :
    ¬ ∀ r ∈ extract_post_data [c9Node], 0 ≤ r.replies ∧ 0 ≤ r.views := by decide

/-- C9 (amended): every extracted record carries integer `replies` and
`views`, and they are non-negative whenever none of the node's count
texts contains a minus sign ('-'); a count text with a minus sign can
produce a negative value, parsed literally. -/
theorem extraction_counts_nonneg_without_minus :
    ∀ (t : ThreadNode) (r : ThreadRecord),
      extractNode t = some r →
      (∀ dls, t.stats = some dls →
        ∀ dl ∈ dls, ∀ dd : String, dl.dd = some dd → '-' ∉ dd.toList) →
      0 ≤ r.replies ∧ 0 ≤ r.views := by
  intro t r h hdd
  obtain ⟨tt, ds, ts, rv, _, _, _, _, hsc, hr⟩ := extractNode_some_shape t r h
  subst hr
  cases hst : t.stats with
  | none =>
    rw [hst] at hsc
    simp only [statsCounts, Except.ok.injEq] at hsc
    constructor
    · simp [← hsc]
    · simp [← hsc]
  | some dls =>
    rw [hst] at hsc
    simp only [statsCounts] at hsc
    exact statsFold_nonneg dls (hdd dls hst) (0, 0) (by decide) (by decide) rv hsc

def c9GoodNode : ThreadNode :=
  ⟨some "T", some "a", some "1970-01-01T00:00:00+00:00",
   some [⟨some "Replies:", some "7"⟩]⟩

def c9GoodRec : ThreadRecord := ⟨"T", "a", ⟨0⟩, 7, 0⟩

/-- C9 witness: the amended non-negativity applied to a concrete node
whose count texts carry no minus sign. -/
theorem extraction_counts_nonneg_without_minus_witness :
    0 ≤ c9GoodRec.replies ∧ 0 ≤ c9GoodRec.views :=
  extraction_counts_nonneg_without_minus c9GoodNode c9GoodRec (by decide)
    (by
      intro dls hdls dl hdl dd hdd2
      injection hdls with h1
      subst h1
      rcases List.mem_cons.mp hdl with h2 | h2
      · subst h2
        injection hdd2 with h3
        subst h3
        decide
      · exact absurd h2 (by simp))

/-- C10: the output of `filter_by_date` is an order-preserving
subsequence of the input: every kept record occurs in the input, nothing
is duplicated or introduced, and relative order is preserved. -/
theorem filter_by_date_output_sublist :
    ∀ (df : DataFrame) (s e : Int),
      List.Sublist (filter_by_date df s e).2.records df.records := by
  intro df s e
  unfold filter_by_date
  by_cases h : df.records = []
  · rw [if_pos h]
  · rw [if_neg h]
    exact List.filter_sublist _
